import Mathlib

/-!
# Verification of the UIEE scheduling engine core (`uiee_engine.cpp`)

Shallow embedding of the UIEE core engine's data model and the operations
referenced by the specification.  C++ `double` values are modelled as exact
rationals (`ℚ`): every claim under scrutiny is an order-theoretic or
membership fact (comparisons, clamping, membership of an arg-max), and all
concrete inputs used below are exactly representable.  Machine integers
(`int`, pids, generation counters) are modelled as `Int`; container sizes as
`Nat`.  Fallible operations (`std::stoi` / `std::stod`) are modelled with
`Option`.  Wall-clock timestamps and thread handles are not representable in
a shallow embedding and are omitted from the corresponding structures; no
claim below depends on them.
-/

namespace UIEE

/-- `UIEECoreEngine::ParetoPoint` (uiee_engine.h): performance,
power_consumption, thermal_impact and a parameter vector, all `double`. -/
structure ParetoPoint where
  performance : ℚ
  power_consumption : ℚ
  thermal_impact : ℚ
  parameters : List ℚ
deriving DecidableEq

/-- The domination test from `UIEECoreEngine::calculateParetoFrontier`
(uiee_engine.cpp:278-286): `other` dominates `point` iff
`other.performance >= point.performance && other.power_consumption <=
point.power_consumption && other.thermal_impact <= point.thermal_impact`
and at least one of the three inequalities is strict. -/
def dominates (other point : ParetoPoint) : Prop :=
  point.performance ≤ other.performance ∧
  other.power_consumption ≤ point.power_consumption ∧
  other.thermal_impact ≤ point.thermal_impact ∧
  (point.performance < other.performance ∨
   other.power_consumption < point.power_consumption ∨
   other.thermal_impact < point.thermal_impact)

instance (a b : ParetoPoint) : Decidable (dominates a b) := by
  unfold dominates; infer_instance

/-- No point dominates a point with equal coordinates, in particular itself:
the final `(... || ... || ...)` strictness clause fails. -/
theorem dominates_irrefl (p : ParetoPoint) : ¬ dominates p p := by
  rintro ⟨-, -, -, h | h | h⟩ <;> exact lt_irrefl _ h

/-- Domination is transitive (componentwise `≤` chains compose, and a strict
inequality of the first link stays strict across the second). -/
theorem dominates_trans {a b c : ParetoPoint}
    (hab : dominates a b) (hbc : dominates b c) : dominates a c := by
  obtain ⟨h1, h2, h3, hs⟩ := hab
  obtain ⟨g1, g2, g3, gs⟩ := hbc
  refine ⟨le_trans g1 h1, le_trans h2 g2, le_trans h3 g3, ?_⟩
  rcases hs with h | h | h
  · exact Or.inl (lt_of_le_of_lt g1 h)
  · exact Or.inr (Or.inl (lt_of_lt_of_le h g2))
  · exact Or.inr (Or.inr (lt_of_lt_of_le h g3))

/-- `UIEECoreEngine::calculateParetoFrontier` (uiee_engine.cpp:267-295):
keeps exactly the input points that no input point dominates.  The C++ inner
loop skips the comparison of a point with itself (`&point == &other`, a slot
identity test); since `dominates q q` is false for value-equal points
(`dominates_irrefl`), running the comparison over the whole list is
equivalent, and the inner loop is translated as a full `∀ q ∈ points`. -/
def calculateParetoFrontier (points : List ParetoPoint) : List ParetoPoint :=
  points.filter (fun p => decide (∀ q ∈ points, ¬ dominates q p))

theorem mem_calculateParetoFrontier {points : List ParetoPoint} {p : ParetoPoint} :
    p ∈ calculateParetoFrontier points ↔
      p ∈ points ∧ ∀ q ∈ points, ¬ dominates q p := by
  simp [calculateParetoFrontier]

/-- Every nonempty list of points has a maximal element for `dominates`:
one that nothing in the list dominates. -/
theorem exists_maximal_point :
    ∀ (l : List ParetoPoint), l ≠ [] → ∃ m ∈ l, ∀ q ∈ l, ¬ dominates q m := by
  intro l
  induction l with
  | nil => intro h; exact absurd rfl h
  | cons a t ih =>
    intro _
    rcases eq_or_ne t [] with rfl | ht
    · exact ⟨a, List.mem_singleton.mpr rfl, by
        intro q hq
        rw [List.mem_singleton] at hq
        subst hq
        exact dominates_irrefl q⟩
    · obtain ⟨m, hm, hmax⟩ := ih ht
      by_cases hd : dominates a m
      · refine ⟨a, List.mem_cons_self a t, ?_⟩
        intro q hq hqa
        rcases List.mem_cons.mp hq with rfl | hq
        · exact dominates_irrefl q hqa
        · exact hmax q hq (dominates_trans hqa hd)
      · refine ⟨m, List.mem_cons_of_mem a hm, ?_⟩
        intro q hq hqm
        rcases List.mem_cons.mp hq with rfl | hq
        · exact hd hqm
        · exact hmax q hq hqm

/-- A point with a dominator in `l` has a dominator in `l` that is itself
undominated in `l` (a maximal element of its dominator set works, by
transitivity). -/
theorem exists_undominated_dominator {l : List ParetoPoint} {p : ParetoPoint}
    (h : ∃ q ∈ l, dominates q p) :
    ∃ m ∈ l, dominates m p ∧ ∀ q ∈ l, ¬ dominates q m := by
  obtain ⟨q0, hq0, hq0p⟩ := h
  set D := l.filter (fun q => decide (dominates q p)) with hD
  have hq0D : q0 ∈ D := by
    rw [hD, List.mem_filter]
    exact ⟨hq0, by simpa using hq0p⟩
  have hDne : D ≠ [] := List.ne_nil_of_mem hq0D
  obtain ⟨m, hmD, hmaxD⟩ := exists_maximal_point D hDne
  have hm : m ∈ l ∧ dominates m p := by
    have := List.mem_filter.mp (hD ▸ hmD)
    exact ⟨this.1, by simpa using this.2⟩
  refine ⟨m, hm.1, hm.2, ?_⟩
  intro q hq hqm
  have hqD : q ∈ D := by
    rw [hD, List.mem_filter]
    exact ⟨hq, by simpa using dominates_trans hqm hm.2⟩
  exact hmaxD q hqD hqm

/-- C1: `calculateParetoFrontier` returns exactly the input points with no
dominator in the input; consequently the returned list is pairwise
non-dominated, and every excluded input point is dominated by some returned
point. -/
theorem pareto_frontier_correct (points : List ParetoPoint) :
    (∀ p, p ∈ calculateParetoFrontier points ↔
        p ∈ points ∧ ∀ q ∈ points, ¬ dominates q p) ∧
    (∀ p ∈ calculateParetoFrontier points,
       ∀ q ∈ calculateParetoFrontier points, ¬ dominates q p) ∧
    (∀ p ∈ points, p ∉ calculateParetoFrontier points →
       ∃ m ∈ calculateParetoFrontier points, dominates m p) := by
  refine ⟨fun p => mem_calculateParetoFrontier, ?_, ?_⟩
  · intro p hp q hq
    have hp' := mem_calculateParetoFrontier.mp hp
    have hq' := mem_calculateParetoFrontier.mp hq
    exact hp'.2 q hq'.1
  · intro p hp hnot
    have : ∃ q ∈ points, dominates q p := by
      by_contra hno
      push_neg at hno
      exact hnot (mem_calculateParetoFrontier.mpr ⟨hp, hno⟩)
    obtain ⟨m, hml, hmp, hmax⟩ := exists_undominated_dominator this
    exact ⟨m, mem_calculateParetoFrontier.mpr ⟨hml, hmax⟩, hmp⟩

/-- Concrete instantiation of `pareto_frontier_correct`: with
`a = (10,1,1)` dominating `b = (5,2,2)`, the excluded point `b` has the
returned point `a` as dominator. -/
theorem pareto_frontier_correct_witness :
    ∃ m ∈ calculateParetoFrontier
        [⟨10, 1, 1, []⟩, ⟨5, 2, 2, []⟩],
      dominates m ⟨5, 2, 2, []⟩ :=
  (pareto_frontier_correct [⟨10, 1, 1, []⟩, ⟨5, 2, 2, []⟩]).2.2
    ⟨5, 2, 2, []⟩ (by decide) (by decide)

/-- `UIEECoreEngine::SceneType` (uiee_engine.h): SCENE_GAME, SCENE_SOCIAL,
SCENE_MEDIA, SCENE_PRODUCTIVITY, SCENE_UNKNOWN. -/
inductive SceneType where
  | game
  | social
  | media
  | productivity
  | unknown
deriving DecidableEq

/-- The (performance, power, thermal) weights chosen by the `switch` in
`UIEECoreEngine::findOptimalPoint` (uiee_engine.cpp:307-330): defaults
0.4/0.3/0.3, overridden per scene. -/
def sceneWeights : SceneType → ℚ × ℚ × ℚ
  | .game => (0.6, 0.2, 0.2)
  | .social => (0.3, 0.4, 0.3)
  | .media => (0.4, 0.3, 0.3)
  | .productivity => (0.5, 0.3, 0.2)
  | .unknown => (0.4, 0.3, 0.3)

/-- The scalarized score of one frontier point
(uiee_engine.cpp:332-334): `wp*performance - wpow*power - wth*thermal`. -/
def pointScore (scene : SceneType) (p : ParetoPoint) : ℚ :=
  (sceneWeights scene).1 * p.performance -
    (sceneWeights scene).2.1 * p.power_consumption -
    (sceneWeights scene).2.2 * p.thermal_impact

/-- The value-initialized `ParetoPoint{}` the C++ returns for an empty
frontier (and keeps as `optimal` when no score beats the sentinel). -/
def zeroPoint : ParetoPoint := ⟨0, 0, 0, []⟩

/-- One iteration of the selection loop in `findOptimalPoint`
(uiee_engine.cpp:336-339): replace the accumulator when the point's score
strictly exceeds the best score so far. -/
def selStep (scene : SceneType) (acc : ℚ × ParetoPoint) (p : ParetoPoint) :
    ℚ × ParetoPoint :=
  if acc.1 < pointScore scene p then (pointScore scene p, p) else acc

/-- `UIEECoreEngine::findOptimalPoint` (uiee_engine.cpp:297-348): returns
`ParetoPoint{}` for an empty frontier, otherwise scans the frontier keeping
the best-scoring point, starting from `best_score = -1.0` and a
value-initialized `optimal`. -/
def findOptimalPoint (scene : SceneType) (frontier : List ParetoPoint) :
    ParetoPoint :=
  if frontier.isEmpty then zeroPoint
  else (frontier.foldl (selStep scene) ((-1 : ℚ), zeroPoint)).2

theorem selStep_foldl_cases (scene : SceneType) :
    ∀ (l : List ParetoPoint) (acc : ℚ × ParetoPoint),
      l.foldl (selStep scene) acc = acc ∨
        ∃ p ∈ l, l.foldl (selStep scene) acc = (pointScore scene p, p) := by
  intro l
  induction l with
  | nil => intro acc; exact Or.inl rfl
  | cons a t ih =>
    intro acc
    rw [List.foldl_cons]
    rcases ih (selStep scene acc a) with h | ⟨p, hp, h⟩
    · rw [h]
      unfold selStep
      split
      · exact Or.inr ⟨a, List.mem_cons_self a t, rfl⟩
      · exact Or.inl rfl
    · exact Or.inr ⟨p, List.mem_cons_of_mem a hp, h⟩

theorem selStep_foldl_fst_ge (scene : SceneType) :
    ∀ (l : List ParetoPoint) (acc : ℚ × ParetoPoint),
      acc.1 ≤ (l.foldl (selStep scene) acc).1 ∧
        ∀ p ∈ l, pointScore scene p ≤ (l.foldl (selStep scene) acc).1 := by
  intro l
  induction l with
  | nil => intro acc; exact ⟨le_refl _, by simp⟩
  | cons a t ih =>
    intro acc
    rw [List.foldl_cons]
    have hstep : acc.1 ≤ (selStep scene acc a).1 ∧
        pointScore scene a ≤ (selStep scene acc a).1 := by
      unfold selStep
      split
      · exact ⟨le_of_lt (by assumption), le_refl _⟩
      · exact ⟨le_refl _, le_of_not_lt (by assumption)⟩
    obtain ⟨h1, h2⟩ := ih (selStep scene acc a)
    refine ⟨le_trans hstep.1 h1, ?_⟩
    intro p hp
    rcases List.mem_cons.mp hp with rfl | hp
    · exact le_trans hstep.2 h1
    · exact h2 p hp

/-- C2 counterexample: the frontier `[(0, 10, 0)]` is non-empty, yet with
the default scene weights its only point scores `-3 ≤ -1`, so the sentinel
`best_score = -1.0` is never beaten and `findOptimalPoint` returns the
value-initialized `ParetoPoint{}`, which is not a member of the frontier. -/
theorem findOptimalPoint_not_mem :
    findOptimalPoint .unknown [⟨0, 10, 0, []⟩] ∉
      ([⟨0, 10, 0, []⟩] : List ParetoPoint) := by
  with_unfolding_all decide

/-- C2 (amended): `findOptimalPoint` returns `ParetoPoint{}` on the empty
frontier; and whenever some frontier point scores strictly above the `-1.0`
sentinel, it returns a member of the frontier whose score is maximal. -/
theorem findOptimalPoint_mem_of_score_gt (scene : SceneType)
    (frontier : List ParetoPoint) :
    findOptimalPoint scene [] = zeroPoint ∧
    ((∃ p ∈ frontier, -1 < pointScore scene p) →
      findOptimalPoint scene frontier ∈ frontier ∧
        ∀ p ∈ frontier,
          pointScore scene p ≤ pointScore scene (findOptimalPoint scene frontier)) := by
  refine ⟨rfl, ?_⟩
  rintro ⟨p, hp, hscore⟩
  have hne : frontier.isEmpty = false := by
    cases frontier with
    | nil => cases hp
    | cons a t => rfl
  have hfold := selStep_foldl_cases scene frontier ((-1 : ℚ), zeroPoint)
  have hge := selStep_foldl_fst_ge scene frontier ((-1 : ℚ), zeroPoint)
  rcases hfold with h | ⟨q, hq, h⟩
  · exfalso
    have := hge.2 p hp
    rw [h] at this
    exact absurd (lt_of_lt_of_le hscore this) (lt_irrefl _)
  · have hres : findOptimalPoint scene frontier = q := by
      unfold findOptimalPoint
      rw [hne]
      simp only [Bool.false_eq_true, if_false, h]
    refine ⟨hres ▸ hq, ?_⟩
    intro r hr
    have := hge.2 r hr
    rw [h] at this
    rw [hres]
    exact this

/-- Concrete instantiation of `findOptimalPoint_mem_of_score_gt`: the
frontier `[(10, 1, 1)]` has a point scoring above `-1`, and the selected
point is a member of the frontier. -/
theorem findOptimalPoint_mem_witness :
    findOptimalPoint .game [⟨10, 1, 1, []⟩] ∈
      ([⟨10, 1, 1, []⟩] : List ParetoPoint) :=
  ((findOptimalPoint_mem_of_score_gt .game [⟨10, 1, 1, []⟩]).2
    ⟨⟨10, 1, 1, []⟩, by decide, by with_unfolding_all decide⟩).1

/-- `UIEECoreEngine::CTOConfig` (uiee_engine.h:96-101). -/
structure CTOConfig where
  enable_task_binding : Bool := false
  enable_io_scheduling : Bool := false
  enable_cpu_affinity : Bool := false
  max_bound_cores : Int := 0
deriving DecidableEq

/-- `UIEECoreEngine::Config` (uiee_engine.h:524-534), with the in-class
default member initializers. -/
structure Config where
  enable_engine : Bool := true
  scheduling_interval : Int := 5
  optimization_enabled : Bool := true
  responsiveness_weight : ℚ := 0.3
  fluency_weight : ℚ := 0.3
  efficiency_weight : ℚ := 0.2
  thermal_weight : ℚ := 0.2
  current_scene : SceneType := .unknown
  cto_config : CTOConfig := {}
deriving DecidableEq

/-- `UIEECoreEngine::PerformanceMetrics` (uiee_engine.h:35-45). -/
structure PerformanceMetrics where
  cpu_usage : ℚ := 0
  memory_usage : ℚ := 0
  gpu_usage : ℚ := 0
  thermal_state : ℚ := 0
  battery_level : ℚ := 0
  responsiveness_score : ℚ := 0
  fluency_score : ℚ := 0
  efficiency_score : ℚ := 0
  ces_score : ℚ := 0
deriving DecidableEq

/-- `UIEECoreEngine::calculateCES` (uiee_engine.cpp:670-679): the weighted
combination of the component scores minus the thermal penalty, clamped by
`std::max(0.0, std::min(100.0, ces_score))`. -/
def calculateCES (cfg : Config) (metrics : PerformanceMetrics) : ℚ :=
  max 0 (min 100
    (cfg.responsiveness_weight * metrics.responsiveness_score +
     cfg.fluency_weight * metrics.fluency_score +
     cfg.efficiency_weight * metrics.efficiency_score -
     cfg.thermal_weight * metrics.thermal_state))

/-- C6: for every weight configuration and every metrics snapshot,
`calculateCES` lands in the closed interval `[0, 100]` (in particular for
the all-zero and all-100 component extremes, which are instances of the
universally quantified statement). -/
theorem calculateCES_bounds (cfg : Config) (metrics : PerformanceMetrics) :
    0 ≤ calculateCES cfg metrics ∧ calculateCES cfg metrics ≤ 100 := by
  constructor
  · exact le_max_left 0 _
  · exact max_le (by norm_num) (le_trans (min_le_left 100 _) (le_refl 100))

/-- Engine lifecycle state touched by `UIEECoreEngine::start`/`stop`
(uiee_engine.cpp:44-87): the atomic `running_` flag, the configuration, and
the sequence of log messages emitted so far.  Thread handles and the
condition variable are concurrency machinery with no shallow-embedding
counterpart; `stop`'s joins and `cv_.notify_all()` do not change any
modelled state. -/
structure EngineState where
  running : Bool
  config : Config
  log : List String
deriving DecidableEq

/-- `UIEECoreEngine::start` (uiee_engine.cpp:44-66): refuses when already
running or when the engine is disabled by configuration; otherwise sets
`running_` and reports success.  Thread spawning is not modelled. -/
def start (s : EngineState) : EngineState × Bool :=
  if s.running then
    ({ s with log := s.log ++ ["ERROR: engine already running"] }, false)
  else if !s.config.enable_engine then
    ({ s with log := s.log ++ ["INFO: engine disabled by config"] }, false)
  else
    ({ s with running := true,
               log := s.log ++ ["INFO: UIEE core engine started"] }, true)

/-- `UIEECoreEngine::stop` (uiee_engine.cpp:69-87): returns immediately when
`running_` is already false; otherwise clears the flag, joins the worker
threads (not modelled), and emits the single shutdown log entry. -/
def stop (s : EngineState) : EngineState :=
  if !s.running then s
  else { s with running := false,
                log := s.log ++ ["INFO: UIEE core engine stopped"] }

/-- C8: `stop` is idempotent — the second of two consecutive calls is a
no-op (same state, hence no second shutdown log entry), in particular after
a `start`; and `stop` on a non-running engine leaves the state unchanged. -/
theorem stop_idempotent (s : EngineState) :
    stop (stop s) = stop s ∧
    (s.running = false → stop s = s) ∧
    stop (stop (start s).1) = stop (start s).1 := by
  have hnonrun : ∀ t : EngineState, t.running = false → stop t = t := by
    intro t ht
    unfold stop
    rw [ht]
    rfl
  have hstopfalse : ∀ t : EngineState, (stop t).running = false := by
    intro t
    unfold stop
    by_cases ht : t.running
    · rw [ht]
      rfl
    · rw [Bool.not_eq_true] at ht
      rw [ht]
      exact ht
  have hidem : ∀ t : EngineState, stop (stop t) = stop t :=
    fun t => hnonrun (stop t) (hstopfalse t)
  exact ⟨hidem s, hnonrun s, hidem (start s).1⟩

/-- Concrete instantiation of `stop_idempotent`: a freshly constructed
non-running engine is left unchanged by `stop`. -/
theorem stop_idempotent_witness :
    stop { running := false, config := {}, log := [] } =
      { running := false, config := {}, log := [] } :=
  (stop_idempotent { running := false, config := {}, log := [] }).2.1 rfl

/-- The performance-history append step of `UIEECoreEngine::mainLoop`
(uiee_engine.cpp:576-580): `if (performance_history_.size() >=
MAX_HISTORY_SIZE) erase(begin()); push_back(metrics)` with
`MAX_HISTORY_SIZE = 1000` (uiee_engine.h:541). -/
def appendPerformanceHistory (h : List PerformanceMetrics)
    (m : PerformanceMetrics) : List PerformanceMetrics :=
  (if 1000 ≤ h.length then h.drop 1 else h) ++ [m]

/-- The evolution-history append step of
`UIEECoreEngine::updateEvolutionState` (uiee_engine.cpp:1437-1443):
`push_back(history); if (evolution_history_.size() > 100) erase(begin())`. -/
def appendEvolutionHistoryRecord {α : Type} (h : List α) (e : α) : List α :=
  let h' := h ++ [e]
  if 100 < h'.length then h'.drop 1 else h'

/-- C9: both history buffers are bounded FIFOs preserved by every append:
starting from any in-bound state, appending keeps the performance history at
most 1000 long and the evolution history at most 100 long, and an append at
exactly full capacity drops the oldest (front) entry before/after keeping
the new entry at the back. -/
theorem history_buffers_bounded_fifo {α : Type}
    (h : List PerformanceMetrics) (m : PerformanceMetrics)
    (g : List α) (e : α) :
    (h.length ≤ 1000 → (appendPerformanceHistory h m).length ≤ 1000) ∧
    (h.length = 1000 → appendPerformanceHistory h m = h.drop 1 ++ [m]) ∧
    (g.length ≤ 100 → (appendEvolutionHistoryRecord g e).length ≤ 100) ∧
    (g.length = 100 → appendEvolutionHistoryRecord g e = g.drop 1 ++ [e]) := by
  refine ⟨?_, ?_, ?_, ?_⟩
  · intro hb
    unfold appendPerformanceHistory
    split
    · simp only [List.length_append, List.length_drop, List.length_cons,
        List.length_nil]
      omega
    · simp only [List.length_append, List.length_cons, List.length_nil]
      omega
  · intro hb
    unfold appendPerformanceHistory
    rw [if_pos (le_of_eq hb.symm)]
  · intro hb
    simp only [appendEvolutionHistoryRecord]
    split
    · simp only [List.length_drop, List.length_append, List.length_cons,
        List.length_nil]
      omega
    · rename_i hlt
      simp only [List.length_append, List.length_cons, List.length_nil]
        at hlt ⊢
      omega
  · intro hb
    simp only [appendEvolutionHistoryRecord]
    have : 100 < (g ++ [e]).length := by
      simp only [List.length_append, List.length_cons, List.length_nil]
      omega
    rw [if_pos this]
    have hg : g ≠ [] := by
      intro hnil
      rw [hnil] at hb
      simp at hb
    cases g with
    | nil => exact absurd rfl hg
    | cons a t => simp

/-- Concrete instantiation of `history_buffers_bounded_fifo`: appending to a
length-100 evolution history evicts the oldest entry. -/
theorem history_buffers_bounded_fifo_witness :
    appendEvolutionHistoryRecord (List.replicate 100 (0 : ℚ)) (1 : ℚ) =
      (List.replicate 100 (0 : ℚ)).drop 1 ++ [(1 : ℚ)] :=
  (history_buffers_bounded_fifo [] {} (List.replicate 100 (0 : ℚ)) 1).2.2.2
    (by simp)

/-- `UIEECoreEngine::TaskInfo` (uiee_engine.h:50-58).  The
`steady_clock::time_point start_time` field is a wall-clock value with no
shallow counterpart and is omitted; no claim depends on it. -/
structure TaskInfo where
  name : String
  pid : Int
  priority : Int
  app_type : String
  cpu_affinity : ℚ
  is_foreground : Bool
deriving DecidableEq

/-- `UIEECoreEngine::addTask` (uiee_engine.cpp:206-217): appends the task
only when `find_if` finds no existing entry with the same pid. -/
def addTask (tasks : List TaskInfo) (t : TaskInfo) : List TaskInfo :=
  if tasks.any (fun u => u.pid == t.pid) then tasks else tasks ++ [t]

/-- `UIEECoreEngine::removeTask` (uiee_engine.cpp:219-229): erases the first
entry `find_if` locates with the given pid, leaving the list unchanged when
none matches. -/
def removeTask (tasks : List TaskInfo) (pid : Int) : List TaskInfo :=
  tasks.eraseP (fun u => u.pid == pid)

/-- The task-reconciliation step of `UIEECoreEngine::monitoringLoop`
(uiee_engine.cpp:607-634): first `remove_if` drops entries whose pid is no
longer among the live pids, then each live pid not yet present is appended
as a fresh `TaskInfo`.  `mk` abstracts the construction of the new entry
(its `name` comes from `/proc`, and `cpu_affinity` is left uninitialized by
the C++); the uniqueness theorem only assumes `(mk pid).pid = pid`, which
the C++ assignment `new_task.pid = pid` guarantees. -/
def monitorReconcile (mk : Int → TaskInfo) (tasks : List TaskInfo)
    (current_pids : List Int) : List TaskInfo :=
  let cleaned := tasks.filter (fun t => current_pids.contains t.pid)
  current_pids.foldl
    (fun acc pid =>
      if acc.any (fun t => t.pid == pid) then acc else acc ++ [mk pid])
    cleaned

theorem addTask_nodup {tasks : List TaskInfo} {t : TaskInfo}
    (h : (tasks.map TaskInfo.pid).Nodup) :
    ((addTask tasks t).map TaskInfo.pid).Nodup := by
  unfold addTask
  split
  · exact h
  · rename_i hany
    rw [List.map_append, List.map_cons, List.map_nil]
    rw [List.nodup_append]
    refine ⟨h, List.nodup_singleton _, ?_⟩
    intro x hx hx1
    rw [List.mem_singleton] at hx1
    subst hx1
    obtain ⟨u, hu, hupid⟩ := List.mem_map.mp hx
    exact hany (List.any_eq_true.mpr ⟨u, hu, by simp [hupid]⟩)

theorem monitorReconcile_fold_nodup (mk : Int → TaskInfo)
    (hmk : ∀ p, (mk p).pid = p) :
    ∀ (pids : List Int) (acc : List TaskInfo),
      (acc.map TaskInfo.pid).Nodup →
      ((pids.foldl
          (fun acc pid =>
            if acc.any (fun t => t.pid == pid) then acc else acc ++ [mk pid])
          acc).map TaskInfo.pid).Nodup := by
  intro pids
  induction pids with
  | nil => intro acc h; exact h
  | cons p rest ih =>
    intro acc h
    rw [List.foldl_cons]
    apply ih
    split
    · exact h
    · rename_i hany
      rw [List.map_append, List.map_cons, List.map_nil]
      rw [List.nodup_append]
      refine ⟨h, List.nodup_singleton _, ?_⟩
      intro x hx hx1
      rw [List.mem_singleton] at hx1
      subst hx1
      obtain ⟨u, hu, hupid⟩ := List.mem_map.mp hx
      exact hany (List.any_eq_true.mpr ⟨u, hu, by
        rw [hmk] at hupid
        simp [hupid]⟩)

/-- C10: pid-uniqueness of the active-task list is an invariant of all three
mutating operations, and the operations behave as claimed: `addTask` leaves
the list unchanged when the pid is present and appends otherwise;
`removeTask` removes at most one (the first matching) entry and is the
identity when the pid is absent; the monitor-loop reconciliation adds fresh
entries only for pids not already present and preserves uniqueness. -/
theorem task_list_pid_unique (tasks : List TaskInfo) (t : TaskInfo)
    (pid : Int) (pids : List Int) (mk : Int → TaskInfo) :
    ((tasks.map TaskInfo.pid).Nodup →
        ((addTask tasks t).map TaskInfo.pid).Nodup) ∧
    ((∃ u ∈ tasks, u.pid = t.pid) → addTask tasks t = tasks) ∧
    ((∀ u ∈ tasks, u.pid ≠ t.pid) → addTask tasks t = tasks ++ [t]) ∧
    ((tasks.map TaskInfo.pid).Nodup →
        ((removeTask tasks pid).map TaskInfo.pid).Nodup) ∧
    tasks.length ≤ (removeTask tasks pid).length + 1 ∧
    ((∀ u ∈ tasks, u.pid ≠ pid) → removeTask tasks pid = tasks) ∧
    ((∀ p, (mk p).pid = p) → (tasks.map TaskInfo.pid).Nodup →
        ((monitorReconcile mk tasks pids).map TaskInfo.pid).Nodup) := by
  refine ⟨addTask_nodup, ?_, ?_, ?_, ?_, ?_, ?_⟩
  · rintro ⟨u, hu, hpid⟩
    have hany : tasks.any (fun u => u.pid == t.pid) = true :=
      List.any_eq_true.mpr ⟨u, hu, by simp [hpid]⟩
    unfold addTask
    rw [if_pos hany]
  · intro hall
    have hany : tasks.any (fun u => u.pid == t.pid) = false := by
      rw [List.any_eq_false]
      intro u hu
      simp only [beq_iff_eq]
      exact hall u hu
    unfold addTask
    simp [hany]
  · intro h
    unfold removeTask
    exact h.sublist ((tasks.eraseP_sublist).map TaskInfo.pid)
  · unfold removeTask
    have := List.le_length_eraseP (p := fun u => u.pid == pid) tasks
    omega
  · intro hall
    unfold removeTask
    apply List.eraseP_of_forall_not
    intro u hu
    simp only [beq_iff_eq]
    exact hall u hu
  · intro hmk h
    unfold monitorReconcile
    apply monitorReconcile_fold_nodup mk hmk
    exact h.sublist ((List.filter_sublist tasks).map TaskInfo.pid)

/-- Concrete instantiation of `task_list_pid_unique`: adding a task whose
pid is already tracked leaves the list unchanged. -/
theorem task_list_pid_unique_witness :
    addTask [⟨"a", 7, 0, "unknown", 0, false⟩]
        ⟨"b", 7, 5, "game", 0, true⟩ =
      [⟨"a", 7, 0, "unknown", 0, false⟩] :=
  (task_list_pid_unique [⟨"a", 7, 0, "unknown", 0, false⟩]
      ⟨"b", 7, 5, "game", 0, true⟩ 0 [] (fun _ => ⟨"", 0, 0, "", 0, false⟩)).2.1
    ⟨⟨"a", 7, 0, "unknown", 0, false⟩, by simp, rfl⟩

/-- `UIEECoreEngine::PerformanceMonitor` (uiee_engine.h, performance
optimization section): two 10-slot ring buffers of cpu/memory usage samples,
a write index, and the two rolling averages recomputed on each insert. -/
structure PerformanceMonitor where
  cpu_usage_samples : List ℚ
  memory_usage_samples : List ℚ
  sample_index : Nat
  avg_cpu_usage : ℚ
  avg_memory_usage : ℚ
deriving DecidableEq

/-- The `PerformanceMonitor` constructor: both buffers zero-filled, index 0,
averages 0. -/
def PerformanceMonitor.init : PerformanceMonitor :=
  ⟨List.replicate 10 0, List.replicate 10 0, 0, 0, 0⟩

/-- `PerformanceMonitor::addSample`: overwrite the slot at `sample_index`,
advance the index modulo 10, and recompute both averages as the buffer sum
divided by 10. -/
def PerformanceMonitor.addSample (m : PerformanceMonitor) (cpu mem : ℚ) :
    PerformanceMonitor :=
  let cs := m.cpu_usage_samples.set m.sample_index cpu
  let ms := m.memory_usage_samples.set m.sample_index mem
  { cpu_usage_samples := cs
    memory_usage_samples := ms
    sample_index := (m.sample_index + 1) % 10
    avg_cpu_usage := cs.sum / 10
    avg_memory_usage := ms.sum / 10 }

/-- `PerformanceMonitor::shouldReduceSampling`:
`avg_cpu_usage > 80.0 || avg_memory_usage > 85.0`. -/
def PerformanceMonitor.shouldReduceSampling (m : PerformanceMonitor) : Bool :=
  decide (80 < m.avg_cpu_usage) || decide (85 < m.avg_memory_usage)

/-- `PerformanceMonitor::shouldIncreaseSampling`:
`avg_cpu_usage < 20.0 && avg_memory_usage < 30.0`. -/
def PerformanceMonitor.shouldIncreaseSampling (m : PerformanceMonitor) : Bool :=
  decide (m.avg_cpu_usage < 20) && decide (m.avg_memory_usage < 30)

/-- `UIEECoreEngine::AdaptiveSamplingConfig` (uiee_engine.h:212-227) with
its constructor defaults: base 30 s, min 5 s, max 120 s. -/
structure AdaptiveSamplingConfig where
  base_sampling_interval : ℚ := 30
  min_sampling_interval : ℚ := 5
  max_sampling_interval : ℚ := 120
deriving DecidableEq

/-- `UIEECoreEngine::updateAdaptiveSampling` (uiee_engine.cpp:1641-1666),
enabled path: add the current cpu/memory sample, then widen the base
interval by ×1.2 (capped at the max) when `shouldReduceSampling`, else
narrow it by ×0.8 (floored at the min) when `shouldIncreaseSampling`, else
leave it unchanged. -/
def updateAdaptiveSampling (mon : PerformanceMonitor)
    (cfg : AdaptiveSamplingConfig) (cpu mem : ℚ) :
    PerformanceMonitor × AdaptiveSamplingConfig :=
  let m := mon.addSample cpu mem
  if m.shouldReduceSampling then
    (m, ⟨min (cfg.base_sampling_interval * 1.2) cfg.max_sampling_interval,
         cfg.min_sampling_interval, cfg.max_sampling_interval⟩)
  else if m.shouldIncreaseSampling then
    (m, ⟨max (cfg.base_sampling_interval * 0.8) cfg.min_sampling_interval,
         cfg.min_sampling_interval, cfg.max_sampling_interval⟩)
  else (m, cfg)

/-- C4 counterexample: one sample of `(1000, 0)` from the initial monitor
gives rolling averages cpu = 100 and mem = 0, so only the cpu threshold is
crossed (mem ≤ 85), yet `updateAdaptiveSampling` widens the interval from
30 to 36 — `shouldReduceSampling` joins its two threshold tests with `||`,
not `&&`. -/
theorem updateAdaptiveSampling_widens_on_cpu_alone :
    ((PerformanceMonitor.init.addSample 1000 0).avg_cpu_usage > 80 ∧
     (PerformanceMonitor.init.addSample 1000 0).avg_memory_usage ≤ 85) ∧
    (updateAdaptiveSampling PerformanceMonitor.init {} 1000 0).2.base_sampling_interval ≠
      (30 : ℚ) := by
  with_unfolding_all decide

/-- C4 (amended): the interval is widened exactly when at least one of the
two rolling averages (computed after the new sample) crosses its high
threshold (`avg cpu > 80` **or** `avg mem > 85`); it is narrowed only when
both fall below the low thresholds (`avg cpu < 20` **and** `avg mem < 30`);
when neither case applies it is unchanged. -/
theorem updateAdaptiveSampling_interval_cases (mon : PerformanceMonitor)
    (cfg : AdaptiveSamplingConfig) (cpu mem : ℚ) :
    ((80 < (mon.addSample cpu mem).avg_cpu_usage ∨
        85 < (mon.addSample cpu mem).avg_memory_usage) →
      (updateAdaptiveSampling mon cfg cpu mem).2.base_sampling_interval =
        min (cfg.base_sampling_interval * 1.2) cfg.max_sampling_interval) ∧
    ((mon.addSample cpu mem).avg_cpu_usage ≤ 80 →
      (mon.addSample cpu mem).avg_memory_usage ≤ 85 →
      (mon.addSample cpu mem).avg_cpu_usage < 20 →
      (mon.addSample cpu mem).avg_memory_usage < 30 →
      (updateAdaptiveSampling mon cfg cpu mem).2.base_sampling_interval =
        max (cfg.base_sampling_interval * 0.8) cfg.min_sampling_interval) ∧
    ((mon.addSample cpu mem).avg_cpu_usage ≤ 80 →
      (mon.addSample cpu mem).avg_memory_usage ≤ 85 →
      ¬((mon.addSample cpu mem).avg_cpu_usage < 20 ∧
        (mon.addSample cpu mem).avg_memory_usage < 30) →
      (updateAdaptiveSampling mon cfg cpu mem).2 = cfg) := by
  refine ⟨?_, ?_, ?_⟩
  · intro hhigh
    have hred : (mon.addSample cpu mem).shouldReduceSampling = true := by
      unfold PerformanceMonitor.shouldReduceSampling
      rcases hhigh with h | h <;> simp [h]
    unfold updateAdaptiveSampling
    rw [if_pos hred]
  · intro hc80 hm85 hc20 hm30
    have hred : (mon.addSample cpu mem).shouldReduceSampling = false := by
      unfold PerformanceMonitor.shouldReduceSampling
      simp [not_lt.mpr hc80, not_lt.mpr hm85]
    have hinc : (mon.addSample cpu mem).shouldIncreaseSampling = true := by
      unfold PerformanceMonitor.shouldIncreaseSampling
      simp [hc20, hm30]
    unfold updateAdaptiveSampling
    rw [if_neg (by simp [hred]), if_pos hinc]
  · intro hc80 hm85 hboth
    have hred : (mon.addSample cpu mem).shouldReduceSampling = false := by
      unfold PerformanceMonitor.shouldReduceSampling
      simp [not_lt.mpr hc80, not_lt.mpr hm85]
    have hinc : (mon.addSample cpu mem).shouldIncreaseSampling = false := by
      unfold PerformanceMonitor.shouldIncreaseSampling
      rw [Bool.and_eq_false_iff]
      by_cases h1 : (mon.addSample cpu mem).avg_cpu_usage < 20
      · right
        simp only [decide_eq_false_iff_not, not_lt]
        by_contra h2
        push_neg at h2
        exact hboth ⟨h1, lt_of_not_le (by simpa using h2)⟩
      · left
        simp [h1]
    unfold updateAdaptiveSampling
    rw [if_neg (by simp [hred]), if_neg (by simp [hinc])]

/-- Concrete instantiation of `updateAdaptiveSampling_interval_cases`: when
both rolling averages stay in the middle band the interval is unchanged. -/
theorem updateAdaptiveSampling_interval_cases_witness :
    (updateAdaptiveSampling PerformanceMonitor.init {} 500 500).2 =
      ({} : AdaptiveSamplingConfig) :=
  (updateAdaptiveSampling_interval_cases PerformanceMonitor.init {} 500 500).2.2
    (by with_unfolding_all decide) (by with_unfolding_all decide)
    (by with_unfolding_all decide)

/-- `UIEECoreEngine::EvolutionHistory` (uiee_engine.h:431-438); the
`steady_clock` timestamp is omitted (not shallow-embeddable, unused by any
claim). -/
structure EvolutionHistory where
  generation : Int := 0
  best_fitness : ℚ := 0
  average_fitness : ℚ := 0
  diversity_score : ℚ := 0
  best_parameters : List ℚ := []
deriving DecidableEq, Inhabited

/-- The evolution-orchestrator state read and written by
`UIEECoreEngine::checkEvolutionConvergence` (uiee_engine.cpp:1147-1160):
the `evolution_active_` flag, whether `population_manager_` is non-null,
the convergence threshold, and the history list (one entry appended per
generation by `updateEvolutionState`). -/
structure EvolutionState where
  evolution_active : Bool
  has_population_manager : Bool
  convergence_threshold : ℚ
  evolution_history : List EvolutionHistory
deriving DecidableEq

/-- `evolution_history_.back().best_fitness` (uiee_engine.cpp:1153). -/
def recentBest (h : List EvolutionHistory) : ℚ :=
  (h.getLastD {}).best_fitness

/-- `evolution_history_[evolution_history_.size() - 10].best_fitness`
(uiee_engine.cpp:1154): the 10th-most-recent entry, i.e. the entry 9
positions before the last one. -/
def tenthLastBest (h : List EvolutionHistory) : ℚ :=
  (h.getD (h.length - 10) {}).best_fitness

/-- `UIEECoreEngine::checkEvolutionConvergence` (uiee_engine.cpp:1147-1160):
returns unchanged when `population_manager_` is null or fewer than 10
history entries exist; otherwise clears `evolution_active_` exactly when
the absolute difference between the latest best fitness and the
10th-most-recent one is below the threshold. -/
def checkEvolutionConvergence (st : EvolutionState) : EvolutionState :=
  if !st.has_population_manager || st.evolution_history.length < 10 then st
  else if |recentBest st.evolution_history - tenthLastBest st.evolution_history| <
      st.convergence_threshold then
    { st with evolution_active := false }
  else st

/-- C7 counterexample: with 11 history entries whose best fitness is
`100, 0, 0, …, 0` and threshold 1, the entry recorded 10 generations before
the latest one (index `size - 11`, fitness 100) differs from the latest
(fitness 0) by 100 ≥ 1, so under the claim the flag should stay set — yet
the code compares against index `size - 10` (fitness 0, only 9 generations
earlier) and clears the flag. -/
theorem checkEvolutionConvergence_offbyone :
    (checkEvolutionConvergence
        ⟨true, true, 1,
          ⟨0, 100, 0, 0, []⟩ :: List.replicate 10 {}⟩).evolution_active
        = false ∧
    1 ≤ |recentBest (⟨0, 100, 0, 0, []⟩ :: List.replicate 10 {}) -
          ((⟨0, 100, 0, 0, []⟩ :: List.replicate 10 ({} : EvolutionHistory)).getD
            ((⟨0, 100, 0, 0, []⟩ :: List.replicate 10 ({} : EvolutionHistory)).length - 11)
            {}).best_fitness| := by
  with_unfolding_all decide

/-- C7 (amended): with a null population manager or fewer than 10 recorded
history entries, `checkEvolutionConvergence` changes nothing; with at least
10 entries it compares the latest best fitness against the
**10th-most-recent** entry (index `size − 10`, recorded 9 generations
earlier, not 10), leaves the history unchanged, and the resulting
evolution-active flag is cleared exactly when it was set and the absolute
difference is below the threshold. -/
theorem checkEvolutionConvergence_cases (st : EvolutionState) :
    (st.has_population_manager = false ∨ st.evolution_history.length < 10 →
      checkEvolutionConvergence st = st) ∧
    (st.has_population_manager = true → 10 ≤ st.evolution_history.length →
      (checkEvolutionConvergence st).evolution_history = st.evolution_history ∧
      (checkEvolutionConvergence st).evolution_active =
        (st.evolution_active &&
          !(decide (|recentBest st.evolution_history -
              tenthLastBest st.evolution_history| <
              st.convergence_threshold)))) := by
  constructor
  · intro h
    unfold checkEvolutionConvergence
    rw [if_pos]
    rcases h with h | h
    · simp [h]
    · simp [h]
  · intro hpm hlen
    have hguard : (!st.has_population_manager ||
        decide (st.evolution_history.length < 10)) = false := by
      simp [hpm, Nat.not_lt.mpr hlen]
    unfold checkEvolutionConvergence
    rw [hguard]
    simp only [Bool.false_eq_true, if_false]
    by_cases hconv : |recentBest st.evolution_history -
        tenthLastBest st.evolution_history| < st.convergence_threshold
    · rw [if_pos hconv]
      simp [hconv]
    · rw [if_neg hconv]
      simp [hconv]

/-- Concrete instantiation of `checkEvolutionConvergence_cases`: a state
with a null population manager passes through unchanged. -/
theorem checkEvolutionConvergence_cases_witness :
    checkEvolutionConvergence ⟨true, false, 1, []⟩ = ⟨true, false, 1, []⟩ :=
  (checkEvolutionConvergence_cases ⟨true, false, 1, []⟩).1 (Or.inl rfl)

/-- `UIEECoreEngine::NashEquilibrium` (uiee_engine.h:88-91). -/
structure NashEquilibrium where
  strategies : List ℚ
  utility_value : ℚ
deriving DecidableEq

/-- One iteration body of `calculateNashEquilibrium`
(uiee_engine.cpp:367-393): per row, the expected payoff
`Σⱼ strategies[j] * payoff_matrix[i][j]` clipped at 0 by `std::max(0.0, ·)`,
then normalized by the total only when that total is positive
(`if (sum > 0)`). -/
def nashStep (payoff_matrix : List (List ℚ)) (s : List ℚ) : List ℚ :=
  let ns := payoff_matrix.map
    (fun row => max 0 ((List.zipWith (· * ·) s row).sum))
  let total := ns.sum
  if 0 < total then ns.map (fun x => x / total) else ns

/-- The convergence test of the loop (uiee_engine.cpp:395-401): no entry of
the new vector differs from the old one by more than `1e-6`. -/
def nashConverged (ns s : List ℚ) : Bool :=
  (List.zipWith (fun x y => decide (|x - y| ≤ 1e-6)) ns s).all id

/-- The bounded iteration (uiee_engine.cpp:363-408): up to `max_iterations
= 100` steps, stopping early once a step changes every entry by at most
`1e-6`; the state after the final executed step is kept either way. -/
def nashLoop (payoff_matrix : List (List ℚ)) : Nat → List ℚ → List ℚ
  | 0, s => s
  | fuel + 1, s =>
    let ns := nashStep payoff_matrix s
    if nashConverged ns s then ns else nashLoop payoff_matrix fuel ns

/-- The quadratic-form utility `Σᵢⱼ sᵢ sⱼ Mᵢⱼ` (uiee_engine.cpp:410-416). -/
def nashUtility (payoff_matrix : List (List ℚ)) (s : List ℚ) : ℚ :=
  (List.zipWith (fun si row => si * (List.zipWith (· * ·) s row).sum)
    s payoff_matrix).sum

/-- `UIEECoreEngine::calculateNashEquilibrium` (uiee_engine.cpp:350-419):
empty matrix returns the default-constructed value; otherwise a uniform
initial vector is iterated through `nashLoop` and the utility is the
quadratic form at the final vector.  (The C++ leaves `utility_value`
uninitialized on the empty-matrix path; it is modelled as 0, and no claim
touches it.) -/
def calculateNashEquilibrium (payoff_matrix : List (List ℚ)) :
    NashEquilibrium :=
  let n := payoff_matrix.length
  if n = 0 then ⟨[], 0⟩
  else
    let s := nashLoop payoff_matrix 100 (List.replicate n ((1 : ℚ) / n))
    ⟨s, nashUtility payoff_matrix s⟩

theorem nashStep_nonneg (payoff_matrix : List (List ℚ)) (s : List ℚ) :
    ∀ x ∈ nashStep payoff_matrix s, 0 ≤ x := by
  intro x hx
  unfold nashStep at hx
  simp only at hx
  split at hx
  · obtain ⟨y, hy, rfl⟩ := List.mem_map.mp hx
    obtain ⟨row, hrow, rfl⟩ := List.mem_map.mp hy
    rename_i htotal
    exact div_nonneg (le_max_left 0 _) (le_of_lt htotal)
  · obtain ⟨row, hrow, rfl⟩ := List.mem_map.mp hx
    exact le_max_left 0 _

theorem nashLoop_nonneg (payoff_matrix : List (List ℚ)) :
    ∀ (fuel : Nat) (s : List ℚ), (∀ x ∈ s, 0 ≤ x) →
      ∀ x ∈ nashLoop payoff_matrix fuel s, 0 ≤ x := by
  intro fuel
  induction fuel with
  | zero => intro s hs; exact hs
  | succ n ih =>
    intro s hs x hx
    unfold nashLoop at hx
    simp only at hx
    split at hx
    · exact nashStep_nonneg payoff_matrix s x hx
    · exact ih (nashStep payoff_matrix s)
        (nashStep_nonneg payoff_matrix s) x hx

/-- When the clipped expected payoffs have a positive total, the normalized
vector produced by one iteration sums exactly to 1. -/
theorem nashStep_sum_one (payoff_matrix : List (List ℚ)) (s : List ℚ)
    (hpos : 0 < (payoff_matrix.map
      (fun row => max 0 ((List.zipWith (· * ·) s row).sum))).sum) :
    (nashStep payoff_matrix s).sum = 1 := by
  unfold nashStep
  simp only
  rw [if_pos hpos]
  have : ∀ (l : List ℚ) (c : ℚ), (l.map (fun x => x / c)).sum = l.sum / c := by
    intro l c
    induction l with
    | nil => simp
    | cons a t ihl => simp [ihl, add_div]
  rw [this]
  exact div_self (ne_of_gt hpos)

/-- C5 counterexample: for the 1×1 payoff matrix `[[-1]]` every expected
payoff is negative, so `max(0.0, ·)` zeroes the vector, the `sum > 0`
normalization guard never fires, and the returned strategy vector is `[0]`
— its sum is 0, not within `1e-6` of 1 (its entries are still
non-negative). -/
theorem calculateNashEquilibrium_zero_vector :
    (calculateNashEquilibrium [[-1]]).strategies = [0] ∧
    1e-6 < |(calculateNashEquilibrium [[-1]]).strategies.sum - 1| := by
  with_unfolding_all decide

/-- C5 (amended): every entry of the returned strategy vector is
non-negative for every payoff matrix; any iteration whose clipped expected
payoffs have a positive total yields a vector summing exactly to 1; and for
the spec's concrete input `[[3,1],[0,2]]` the returned vector sums to
exactly 1 (so within `1e-6`).  When every expected payoff is non-positive
(e.g. `[[-1]]`) the vector collapses to all zeros with sum 0 instead. -/
theorem calculateNashEquilibrium_props (payoff_matrix : List (List ℚ))
    (s : List ℚ) :
    (∀ x ∈ (calculateNashEquilibrium payoff_matrix).strategies, 0 ≤ x) ∧
    (0 < (payoff_matrix.map
        (fun row => max 0 ((List.zipWith (· * ·) s row).sum))).sum →
      (nashStep payoff_matrix s).sum = 1) ∧
    (calculateNashEquilibrium [[3, 1], [0, 2]]).strategies.sum = 1 := by
  refine ⟨?_, nashStep_sum_one payoff_matrix s, ?_⟩
  · intro x hx
    unfold calculateNashEquilibrium at hx
    simp only at hx
    split at hx
    · simp at hx
    · apply nashLoop_nonneg payoff_matrix 100
        (List.replicate payoff_matrix.length ((1 : ℚ) / payoff_matrix.length))
        ?_ x hx
      intro y hy
      rw [List.eq_of_mem_replicate hy]
      positivity
  · with_unfolding_all decide

/-- Concrete instantiation of `calculateNashEquilibrium_props`: for
`[[3,1],[0,2]]`, entries are non-negative and the first step from the
uniform vector normalizes to sum 1. -/
theorem calculateNashEquilibrium_props_witness :
    (∀ x ∈ (calculateNashEquilibrium [[3, 1], [0, 2]]).strategies, 0 ≤ x) ∧
    (nashStep [[3, 1], [0, 2]] [1/2, 1/2]).sum = 1 :=
  ⟨(calculateNashEquilibrium_props [[3, 1], [0, 2]] [1/2, 1/2]).1,
   (calculateNashEquilibrium_props [[3, 1], [0, 2]] [1/2, 1/2]).2.1
     (by with_unfolding_all decide)⟩

/-- The whitespace set `" \t\r\n"` used by `loadConfig`'s trimming
(uiee_engine.cpp:124-127). -/
def isCfgSpace (c : Char) : Bool :=
  c == ' ' || c == '\t' || c == '\r' || c == '\n'

/-- The two `erase`/`find_first_not_of`/`find_last_not_of` calls of
`loadConfig`: strip the characters of `" \t\r\n"` from both ends. -/
def trimCfg (cs : List Char) : List Char :=
  ((cs.dropWhile isCfgSpace).reverse.dropWhile isCfgSpace).reverse

/-- `line.find('=')` + the two `substr` calls (uiee_engine.cpp:115-121):
split at the first `'='`, or `none` when the line has no `'='`. -/
def splitAtEq (cs : List Char) : Option (List Char × List Char) :=
  match cs.dropWhile (fun c => !(c == '=')) with
  | [] => none
  | _ :: v => some (cs.takeWhile (fun c => !(c == '=')), v)

/-- Digit run to a natural number. -/
def digitsToNat (ds : List Char) : Nat :=
  ds.foldl (fun acc d => acc * 10 + (d.toNat - 48)) 0

/-- Model of `std::stoi` as used on config values: skip leading whitespace,
accept an optional sign and a non-empty digit run (further trailing
characters are ignored, as `std::stoi` ignores them); `none` models the
`std::invalid_argument` exception thrown when no digits can be consumed. -/
def stoiModel (s : String) : Option Int :=
  let cs := s.data.dropWhile isCfgSpace
  let sgn : Int × List Char :=
    match cs with
    | '-' :: t => (-1, t)
    | '+' :: t => (1, t)
    | t => (1, t)
  let ds := sgn.2.takeWhile Char.isDigit
  if ds.isEmpty then none else some (sgn.1 * (digitsToNat ds : Int))

/-- Model of `std::stod` restricted to the plain decimal forms the config
uses: optional sign, digits, optional `'.'` and fraction digits; exponent
and hex forms are not modelled.  `none` models the `std::invalid_argument`
exception when no numeric prefix exists — the case the malformed-value
scenario exercises. -/
def stodModel (s : String) : Option ℚ :=
  let cs := s.data.dropWhile isCfgSpace
  let sgn : ℚ × List Char :=
    match cs with
    | '-' :: t => (-1, t)
    | '+' :: t => (1, t)
    | t => (1, t)
  let ip := sgn.2.takeWhile Char.isDigit
  match sgn.2.drop ip.length with
  | '.' :: tail =>
    let fp := tail.takeWhile Char.isDigit
    if ip.isEmpty && fp.isEmpty then none
    else some (sgn.1 * ((digitsToNat ip : ℚ) +
      (digitsToNat fp : ℚ) / (10 : ℚ) ^ fp.length))
  | _ => if ip.isEmpty then none else some (sgn.1 * (digitsToNat ip : ℚ))

/-- One line of the parsing loop of `UIEECoreEngine::loadConfig`
(uiee_engine.cpp:108-150), as the config update it performs: comment/empty
lines, lines without `'='` and unrecognized keys leave the config unchanged
(`continue`); a recognized key stores the parsed value; `none` models an
uncaught `std::stoi`/`std::stod` exception (the loop body has no
`try`/`catch`), which happens before any assignment for that line. -/
def parseLine (line : String) : Option (Config → Config) :=
  match line.data with
  | [] => some id
  | c0 :: _ =>
    if c0 == '#' then some id
    else
      match splitAtEq line.data with
      | none => some id
      | some (k, v) =>
        let key := String.mk (trimCfg k)
        let value := String.mk (trimCfg v)
        if key = "enable_engine" then
          some (fun c => { c with enable_engine := value == "true" })
        else if key = "scheduling_interval" then
          (stoiModel value).map (fun n c => { c with scheduling_interval := n })
        else if key = "optimization_enabled" then
          some (fun c => { c with optimization_enabled := value == "true" })
        else if key = "responsiveness_weight" then
          (stodModel value).map (fun w c => { c with responsiveness_weight := w })
        else if key = "fluency_weight" then
          (stodModel value).map (fun w c => { c with fluency_weight := w })
        else if key = "efficiency_weight" then
          (stodModel value).map (fun w c => { c with efficiency_weight := w })
        else if key = "thermal_weight" then
          (stodModel value).map (fun w c => { c with thermal_weight := w })
        else some id

/-- The `while (std::getline(...))` loop of `loadConfig` over the file's
lines: applies each line's update in order; when a line's numeric value
fails to parse the exception propagates out of the loop (second component
`true`), keeping the updates of the earlier lines and processing none of
the later ones. -/
def loadConfigLines (c : Config) : List String → Config × Bool
  | [] => (c, false)
  | l :: ls =>
    match parseLine l with
    | some f => loadConfigLines (f c) ls
    | none => (c, true)

/-- C3 counterexample: parsing `["scheduling_interval=abc",
"fluency_weight=0.9"]` aborts at the malformed first line (`std::stoi`
throws, nothing catches it inside `loadConfig`), so the valid second line
is never applied — `fluency_weight` keeps its default 0.3 instead of 0.9,
contradicting "every other valid line's value is still applied" and
"loadConfig does not abort". -/
theorem loadConfig_does_not_skip_malformed :
    (loadConfigLines {} ["scheduling_interval=abc", "fluency_weight=0.9"]).2
        = true ∧
    (loadConfigLines {} ["scheduling_interval=abc", "fluency_weight=0.9"]).1.fluency_weight
        = 0.3 := by
  with_unfolding_all decide

/-- C3 (amended): a malformed numeric value for a recognized numeric key
makes `std::stoi`/`std::stod` throw; the uncaught exception aborts the
parsing loop at that line, so the preceding lines' values are kept (they
parse without abort), no later line is applied, and `loadConfig` reports
the abort instead of skipping the line with a warning. -/
theorem loadConfig_aborts_at_malformed (c : Config) (pre post : List String)
    (bad : String)
    (hpre : ∀ l ∈ pre, (parseLine l).isSome = true)
    (hbad : parseLine bad = none) :
    loadConfigLines c (pre ++ bad :: post) =
      ((loadConfigLines c pre).1, true) ∧
    (loadConfigLines c pre).2 = false := by
  induction pre generalizing c with
  | nil =>
    constructor
    · simp only [List.nil_append, loadConfigLines, hbad]
    · rfl
  | cons l rest ih =>
    have hl : (parseLine l).isSome = true := hpre l (List.mem_cons_self l rest)
    obtain ⟨f, hf⟩ := Option.isSome_iff_exists.mp hl
    have hrest : ∀ x ∈ rest, (parseLine x).isSome = true :=
      fun x hx => hpre x (List.mem_cons_of_mem l hx)
    constructor
    · simp only [List.cons_append, loadConfigLines, hf]
      exact (ih (f c) hrest).1
    · simp only [loadConfigLines, hf]
      exact (ih (f c) hrest).2

/-- Concrete instantiation of `loadConfig_aborts_at_malformed`: a valid
line, then a malformed `scheduling_interval`, then another valid line —
parsing aborts right after the valid prefix. -/
theorem loadConfig_aborts_at_malformed_witness :
    loadConfigLines {}
        (["enable_engine=true"] ++
          "scheduling_interval=xyz" :: ["efficiency_weight=0.5"]) =
      ((loadConfigLines {} ["enable_engine=true"]).1, true) :=
  (loadConfig_aborts_at_malformed {} ["enable_engine=true"]
      ["efficiency_weight=0.5"] "scheduling_interval=xyz"
      (by with_unfolding_all decide) (by with_unfolding_all rfl)).1

end UIEE
